import Mathlib

/-!
Shallow embedding of the HB-CLI booster supervisor (src/index.ts) and of the
credential-store decryption layer (src/config/crypto.ts, src/config/db.ts).

The supervisor keeps a registry `clients` (a JS `Map` keyed by username), a
`retryAttempts` map, and schedules reconnects with `setTimeout`.  JS `Map`s are
modelled as association lists with `Map.get/set/delete` semantics; `setTimeout`
closures `() => startBoosting(acc, idx)` are modelled as `Timer` records
holding a reference into an account heap, because the closure captures the
mutable `acc` object shared with the registry entry and the other handlers of
the same `startBoosting` call.  Observable actions (client creation, logOn,
logOff, timer scheduling/cancellation, token persistence) are returned as an
`Effect` list.
-/

namespace HBCLI

/-- Association-list lookup, the semantics of JS `Map.get`. -/
def assocFind {κ β : Type} [DecidableEq κ] (u : κ) : List (κ × β) → Option β
  | [] => none
  | (k, v) :: t => if k = u then some v else assocFind u t

/-- Association-list removal of the (single) binding for a key: JS `Map.delete`. -/
def assocErase {κ β : Type} [DecidableEq κ] (u : κ) : List (κ × β) → List (κ × β)
  | [] => []
  | (k, v) :: t => if k = u then t else (k, v) :: assocErase u t

/-- Association-list update: JS `Map.set` (replace in place, else append). -/
def assocSet {κ β : Type} [DecidableEq κ] (u : κ) (v : β) : List (κ × β) → List (κ × β)
  | [] => [(u, v)]
  | (k, w) :: t => if k = u then (u, v) :: t else (k, w) :: assocSet u v t

/-- Steam result codes are a numeric enum in steam-user. -/
abbrev EResult := Nat

def EResult.Invalid : EResult := 0

def EResult.NoConnection : EResult := 3

def EResult.LoggedInElsewhere : EResult := 6

def EResult.AccountLoginDeniedThrottle : EResult := 87

/-- `db.Account` (src/config/db.ts): the configuration record for one identity.
`games` is the parsed JSON list; `refreshToken` is the session token. -/
structure Account where
  username : String
  password : Option String
  games : List Nat
  custom_title : Option String
  appear_offline : Bool
  auto_restarter : Bool
  refreshToken : Option String
deriving Repr, DecidableEq, Inhabited

/-- One entry of the `clients` map in src/index.ts.  The `SteamUser` instance is
identified by `clientId`; `accRef` points into the account heap at the mutable
`acc` object this entry shares with the handlers' closures. -/
structure ClientEntry where
  clientId : Nat
  accRef : Nat
  idx : Nat
  isLoggingIn : Bool
  autoRestartTimeout : Option Nat
  isWaitingOnElsewhere : Bool
deriving Repr, DecidableEq

/-- A pending `setTimeout(() => startBoosting(acc, idx), delayMs)` call. -/
structure Timer where
  tid : Nat
  delayMs : Nat
  accRef : Nat
  idx : Nat
deriving Repr, DecidableEq

/-- The closure context shared by the event handlers a `startBoosting` call
registers on its `SteamUser` client: the captured `client`, `acc` and `idx`. -/
structure Closure where
  clientId : Nat
  accRef : Nat
  idx : Nat
deriving Repr, DecidableEq

/-- Externally observable actions of the supervisor. -/
inductive Effect where
  | clientCreated (username : String) (clientId : Nat)
  | logOn (clientId : Nat) (useToken : Bool)
  | logOff (clientId : Nat)
  | stopped (username : String)
  | schedule (tid : Nat) (delayMs : Nat)
  | cancelTimer (tid : Nat)
  | persistToken (username : String) (token : Option String)
  | setPersona (clientId : Nat) (offline : Bool)
  | gamesPlayed (clientId : Nat) (title : Option String) (games : List Nat)
deriving Repr, DecidableEq

/-- The supervisor's whole mutable state: the `clients` and `retryAttempts`
maps, the pending timers, and the heap of live `acc` objects. -/
structure SupState where
  clients : List (String × ClientEntry)
  retryAttempts : List (String × Nat)
  pendingTimers : List Timer
  heap : List (Nat × Account)
  nextClientId : Nat
  nextTimerId : Nat
  nextRef : Nat
deriving Repr, DecidableEq

def SupState.empty : SupState :=
  { clients := [], retryAttempts := [], pendingTimers := [], heap := [],
    nextClientId := 0, nextTimerId := 0, nextRef := 0 }

/-- Dereference an account object. -/
def heapGet (s : SupState) (r : Nat) : Account :=
  (assocFind r s.heap).getD default

/-- Mutate an account object in place (e.g. `acc.auto_restarter = false`). -/
def heapSet (s : SupState) (r : Nat) (a : Account) : SupState :=
  { s with heap := assocSet r a s.heap }

/-- Allocate a fresh account object (a record freshly built by `getAccounts`). -/
def alloc (s : SupState) (a : Account) : Nat × SupState :=
  (s.nextRef, { s with heap := assocSet s.nextRef a s.heap, nextRef := s.nextRef + 1 })

def MAX_RETRIES : Nat := 5

/-- src/index.ts `stopBoosting`: if the username is registered, clear its
`autoRestartTimeout` (if any), log the client off, and delete the username from
both `clients` and `retryAttempts`. -/
def stopBoosting (s : SupState) (username : String) : SupState × List Effect :=
  match assocFind username s.clients with
  | none => (s, [])
  | some entry =>
    let (timers, cancels) :=
      match entry.autoRestartTimeout with
      | some tid => (s.pendingTimers.filter (fun t => t.tid != tid), [Effect.cancelTimer tid])
      | none => (s.pendingTimers, ([] : List Effect))
    ({ s with clients := assocErase username s.clients,
              retryAttempts := assocErase username s.retryAttempts,
              pendingTimers := timers },
     cancels ++ [Effect.logOff entry.clientId, Effect.stopped username])

/-- src/index.ts `startBoosting`: a no-op if the username is already
registered; otherwise create a fresh `SteamUser` client, register the entry,
and log on with the refresh token if present, else with the password. -/
def startBoosting (s : SupState) (accRef : Nat) (idx : Nat) : SupState × List Effect :=
  let acc := heapGet s accRef
  if (assocFind acc.username s.clients).isSome then (s, [])
  else
    let cid := s.nextClientId
    let entry : ClientEntry :=
      { clientId := cid, accRef := accRef, idx := idx,
        isLoggingIn := true, autoRestartTimeout := none, isWaitingOnElsewhere := false }
    ({ s with clients := assocSet acc.username entry s.clients, nextClientId := cid + 1 },
     [Effect.clientCreated acc.username cid, Effect.logOn cid acc.refreshToken.isSome])

/-- The `loggedOn` handler: clear `isLoggingIn`, delete the retry counter,
declare presence and the game list. -/
def onLoggedOn (s : SupState) (c : Closure) : SupState × List Effect :=
  let acc := heapGet s c.accRef
  let s1 :=
    match assocFind acc.username s.clients with
    | some entry =>
        { s with clients := assocSet acc.username ({ entry with isLoggingIn := false }) s.clients }
    | none => s
  let s2 := { s1 with retryAttempts := assocErase acc.username s1.retryAttempts }
  (s2, [Effect.setPersona c.clientId acc.appear_offline,
        Effect.gamesPlayed c.clientId acc.custom_title acc.games])

/-- The `refreshToken` handler: persist the new token and update the in-memory
`acc` object. -/
def onRefreshToken (s : SupState) (c : Closure) (token : String) : SupState × List Effect :=
  let acc := heapGet s c.accRef
  (heapSet s c.accRef { acc with refreshToken := some token },
   [Effect.persistToken acc.username (some token)])

/-- The `error` handler: clear `isLoggingIn`; on `LoggedInElsewhere`, mark the
entry as waiting (when `auto_restarter`) and log the client off; on
`AccountLoginDeniedThrottle`, clear `acc.auto_restarter` in memory. -/
def onError (s : SupState) (c : Closure) (eresult : Option EResult) : SupState × List Effect :=
  let acc := heapGet s c.accRef
  let entryOpt := assocFind acc.username s.clients
  let s1 :=
    match entryOpt with
    | some entry =>
        { s with clients := assocSet acc.username ({ entry with isLoggingIn := false }) s.clients }
    | none => s
  if eresult = some EResult.LoggedInElsewhere then
    let s2 :=
      match entryOpt with
      | some entry =>
          if acc.auto_restarter then
            { s1 with clients := (assocSet acc.username
                ({ entry with isLoggingIn := false, isWaitingOnElsewhere := true }) s1.clients) }
          else s1
      | none => s1
    (s2, [Effect.logOff c.clientId])
  else if eresult = some EResult.AccountLoginDeniedThrottle then
    match entryOpt with
    | some _ => (heapSet s1 c.accRef { acc with auto_restarter := false }, [])
    | none => (s1, [])
  else (s1, [])

/-- The `disconnected` handler: if the username is not registered, do nothing;
otherwise delete it from `clients` and, when `acc.auto_restarter`, either take
the 45-minute elsewhere cooldown (when `isWaitingOnElsewhere` was set), ignore
an `Invalid` result, or run the exponential-backoff policy. -/
def onDisconnected (s : SupState) (c : Closure) (eresult : EResult) : SupState × List Effect :=
  let acc := heapGet s c.accRef
  match assocFind acc.username s.clients with
  | none => (s, [])
  | some entry =>
    let wasWaitingOnElsewhere := entry.isWaitingOnElsewhere
    let s1 := { s with clients := assocErase acc.username s.clients }
    if acc.auto_restarter then
      if wasWaitingOnElsewhere then
        let t : Timer := { tid := s1.nextTimerId, delayMs := 45 * 60 * 1000,
                           accRef := c.accRef, idx := c.idx }
        ({ s1 with pendingTimers := s1.pendingTimers ++ [t], nextTimerId := s1.nextTimerId + 1 },
         [Effect.schedule t.tid t.delayMs])
      else if eresult = EResult.Invalid then (s1, [])
      else
        let currentAttempt := ((assocFind acc.username s1.retryAttempts).getD 0) + 1
        if MAX_RETRIES < currentAttempt then
          ({ s1 with retryAttempts := assocErase acc.username s1.retryAttempts }, [])
        else
          let delay := 60000 * 2 ^ (currentAttempt - 1)
          let t : Timer := { tid := s1.nextTimerId, delayMs := delay,
                             accRef := c.accRef, idx := c.idx }
          ({ s1 with retryAttempts := assocSet acc.username currentAttempt s1.retryAttempts,
                     pendingTimers := s1.pendingTimers ++ [t],
                     nextTimerId := s1.nextTimerId + 1 },
           [Effect.schedule t.tid t.delayMs])
    else (s1, [])

/-- Find a pending timer by id. -/
def findTimer (tid : Nat) : List Timer → Option Timer
  | [] => none
  | t :: rest => if t.tid = tid then some t else findTimer tid rest

/-- A pending `setTimeout` fires: it is no longer pending and its closure runs
`startBoosting(acc, idx)` with the captured account object. -/
def fireTimer (s : SupState) (tid : Nat) : SupState × List Effect :=
  match findTimer tid s.pendingTimers with
  | none => (s, [])
  | some t =>
    let s1 := { s with pendingTimers := s.pendingTimers.filter (fun t2 => t2.tid != tid) }
    startBoosting s1 t.accRef t.idx

/-- The restart test of `updateBoosting`: every field except the refresh token
(`JSON.stringify` equality on `games` is list equality). -/
def needsRestart (oldAcc newAcc : Account) : Bool :=
  decide (oldAcc.password ≠ newAcc.password) ||
  decide (oldAcc.games ≠ newAcc.games) ||
  decide (oldAcc.appear_offline ≠ newAcc.appear_offline) ||
  decide (oldAcc.auto_restarter ≠ newAcc.auto_restarter) ||
  decide (oldAcc.custom_title ≠ newAcc.custom_title)

/-- `new Map(Array.from(clients.values()).map(c => [c.acc.username, c.acc]))`:
the previous configuration snapshot, read off the live registry. -/
def currentAccountsOf (s : SupState) : List (String × Account) :=
  s.clients.map (fun p => ((heapGet s p.2.accRef).username, heapGet s p.2.accRef))

/-- `newAccountsMap.has u` for the new snapshot. -/
def hasUsername (l : List Account) (u : String) : Bool :=
  l.any (fun a => decide (a.username = u))

/-- Step 1 of `updateBoosting`: stop every currently boosted username that is
absent from the new snapshot. -/
def reconcileStops (newAccounts : List Account) :
    List (String × Account) → SupState × List Effect → SupState × List Effect
  | [], st => st
  | p :: rest, st =>
    if hasUsername newAccounts p.1 then reconcileStops newAccounts rest st
    else
      let (s', e') := stopBoosting st.1 p.1
      reconcileStops newAccounts rest (s', st.2 ++ e')

/-- The body of `newAccounts.forEach((newAcc, idx) => ...)` in `updateBoosting`:
start a new username, and stop-then-start a username whose old record (from the
snapshot taken before the removal loop) differs in a field other than the
token. -/
def reconcileStep (snapshot : List (String × Account)) (i : Nat) (newAcc : Account)
    (st : SupState × List Effect) : SupState × List Effect :=
  let s := st.1
  match assocFind newAcc.username s.clients with
  | none =>
    let (r, sa) := alloc s newAcc
    let (s', e') := startBoosting sa r (i + 1)
    (s', st.2 ++ e')
  | some _ =>
    match assocFind newAcc.username snapshot with
    | none => (s, st.2)
    | some oldAcc =>
      if needsRestart oldAcc newAcc then
        let s0 := { s with retryAttempts := assocErase newAcc.username s.retryAttempts }
        let (sb, e1) := stopBoosting s0 newAcc.username
        let (r, sc) := alloc sb newAcc
        let (s', e2) := startBoosting sc r (i + 1)
        (s', st.2 ++ e1 ++ e2)
      else (s, st.2)

/-- Step 2 of `updateBoosting`: run `reconcileStep` over the indexed new
snapshot. -/
def reconcileStarts (snapshot : List (String × Account)) :
    List (Nat × Account) → SupState × List Effect → SupState × List Effect
  | [], st => st
  | (i, newAcc) :: rest, st =>
    reconcileStarts snapshot rest (reconcileStep snapshot i newAcc st)

/-- src/index.ts `updateBoosting`: one reconciliation pass from the registry's
current accounts to the freshly loaded `newAccounts`. -/
def updateBoosting (s : SupState) (newAccounts : List Account) : SupState × List Effect :=
  let snapshot := currentAccountsOf s
  let st1 := reconcileStops newAccounts snapshot (s, [])
  reconcileStarts snapshot newAccounts.enum st1

/-- Count of stop actions a reconciliation pass performed for a username. -/
def stopsFor (u : String) (eff : List Effect) : Nat :=
  eff.countP (fun e => match e with | Effect.stopped v => decide (v = u) | _ => false)

/-- Count of session starts (client creations) for a username. -/
def startsFor (u : String) (eff : List Effect) : Nat :=
  eff.countP (fun e => match e with | Effect.clientCreated v _ => decide (v = u) | _ => false)

/-- One external stimulus to the supervisor: a public call, a client event
delivered through a handler closure, a timer expiry, or a reconciliation poll. -/
inductive SupAction where
  | start (accRef : Nat) (idx : Nat)
  | stop (username : String)
  | loggedOn (c : Closure)
  | tokenRotated (c : Closure) (token : String)
  | clientError (c : Closure) (eresult : Option EResult)
  | disconnected (c : Closure) (eresult : EResult)
  | timerFired (tid : Nat)
  | reconcile (newAccounts : List Account)
deriving Repr

/-- Dispatch of one stimulus to the corresponding supervisor routine. -/
def supStep (s : SupState) (a : SupAction) : SupState × List Effect :=
  match a with
  | .start accRef idx => startBoosting s accRef idx
  | .stop username => stopBoosting s username
  | .loggedOn c => onLoggedOn s c
  | .tokenRotated c token => onRefreshToken s c token
  | .clientError c eresult => onError s c eresult
  | .disconnected c eresult => onDisconnected s c eresult
  | .timerFired tid => fireTimer s tid
  | .reconcile newAccounts => updateBoosting s newAccounts

/-- At most one registry entry per identity: the keys of `clients` are distinct. -/
def ClientKeysNodup (s : SupState) : Prop :=
  (s.clients.map Prod.fst).Nodup

/-- Every registry entry is filed under its own account's username. -/
def KeyConsistent (s : SupState) : Prop :=
  ∀ p ∈ s.clients, (heapGet s p.2.accRef).username = p.1

/-- What a process signal listener does when it runs: either it calls
`process.exit` synchronously, or it returns after scheduling an exit. -/
inductive HandlerResult where
  | syncExit (code : Nat)
  | scheduledExit (delayMs : Nat) (code : Nat)
deriving Repr, DecidableEq

/-- src/index.ts `gracefulShutdown`: with no clients, exit 0 at once; otherwise
stop every boosted username and schedule `process.exit(0)` after 2000 ms. -/
def gracefulShutdown (s : SupState) : (SupState × List Effect) × HandlerResult :=
  let allClients := s.clients.map Prod.fst
  if allClients.isEmpty then ((s, []), .syncExit 0)
  else
    let stopAll := allClients.foldl
      (fun st u =>
        let (s2, e) := stopBoosting st.1 u
        (s2, st.2 ++ e)) (s, [])
    (stopAll, .scheduledExit 2000 0)

inductive Signal where
  | SIGINT
  | SIGTERM
deriving Repr, DecidableEq

/-- The listener src/config/db.ts installs for each termination signal:
`process.on('SIGINT', () => process.exit(128 + 2))` and
`process.on('SIGTERM', () => process.exit(128 + 15))`. -/
def dbSignalExitCode (sig : Signal) : Nat :=
  match sig with
  | .SIGINT => 128 + 2
  | .SIGTERM => 128 + 15

/-- Final outcome of delivering a termination signal to the process. -/
structure SignalOutcome where
  state : SupState
  effects : List Effect
  exitCode : Nat
  exitDelayMs : Nat
deriving Repr, DecidableEq

/-- Delivering SIGINT or SIGTERM runs the registered listeners in registration
order.  src/index.ts registers `gracefulShutdown` before it requires
src/config/db.ts, whose listener is therefore second; a listener that calls
`process.exit` synchronously terminates the process at once, so db's
unconditional `process.exit(128 + n)` preempts the 2000 ms exit(0) that
`gracefulShutdown` scheduled. -/
def deliverSignal (s : SupState) (sig : Signal) : SignalOutcome :=
  let ((s', eff), r) := gracefulShutdown s
  match r with
  | .syncExit code => { state := s', effects := eff, exitCode := code, exitDelayMs := 0 }
  | .scheduledExit _ _ =>
      { state := s', effects := eff, exitCode := dbSignalExitCode sig, exitDelayMs := 0 }

/-- The spec's reconciliation equality: every `Account` field except the
session token agrees. -/
def sameExceptToken (a b : Account) : Prop :=
  a.username = b.username ∧ a.password = b.password ∧ a.games = b.games ∧
  a.custom_title = b.custom_title ∧ a.appear_offline = b.appear_offline ∧
  a.auto_restarter = b.auto_restarter

instance (a b : Account) : Decidable (sameExceptToken a b) := by
  unfold sameExceptToken
  infer_instance

/-- A concrete account record used to evaluate the supervisor on explicit runs. -/
def accA : Account :=
  { username := "alice", password := some "pw", games := [440], custom_title := none,
    appear_offline := false, auto_restarter := true, refreshToken := none }

/-- `accA` with a different game list (a restart-relevant field change). -/
def accA2 : Account := { accA with games := [570] }

/-- `accA` with only the session token rotated. -/
def accAtok : Account := { accA with refreshToken := some "tok2" }

/-- The state after starting `accA` from the empty state: client 0, heap ref 0. -/
def sAlice : SupState := (startBoosting (alloc SupState.empty accA).2 0 1).1

/-- The closure context of client 0's handlers. -/
def cAlice : Closure := { clientId := 0, accRef := 0, idx := 1 }

/-- `sAlice` after an ordinary disconnect: the session left the registry, a
60 s reconnect timer is pending and the retry count is 1 (BackoffWait). -/
def sBackoff : SupState := (onDisconnected sAlice cAlice EResult.NoConnection).1

/-- `sBackoff` after a poll in which alice's game list changed: the identity is
absent from the registry, so reconciliation starts client 1 at once while the
60 s timer from the previous generation stays pending. -/
def sRestarted : SupState := (updateBoosting sBackoff [accA2]).1

/-- `sRestarted` after a reconciliation pass that removed alice: her live
session is stopped, but the pending 60 s timer is untouched. -/
def sStopped : SupState := (updateBoosting sRestarted []).1

/-- `sRestarted` after client 1 also disconnects ordinarily: two reconnect
timers for the same identity are now pending. -/
def sTwoTimers : SupState := (onDisconnected sRestarted ⟨1, 1, 1⟩ EResult.NoConnection).1

end HBCLI

namespace HBCLI.Crypto

/-!
src/config/crypto.ts.  The AES-256-CBC decipher itself (Node's `crypto`
module) is abstracted as a parameter `decipher : String → String → Option String`
taking the iv and ciphertext hex strings; `none` models `createDecipheriv` /
`final` throwing (wrong key, bad iv, bad padding).
-/

/-- JS `String.prototype.split` with a one-character separator, on the
character list (structural recursion, so it evaluates). -/
def splitOnChar (c : Char) : List Char → List (List Char)
  | [] => [[]]
  | x :: xs =>
    if x = c then [] :: splitOnChar c xs
    else
      match splitOnChar c xs with
      | [] => [[x]]
      | y :: ys => (x :: y) :: ys

/-- The body of `decrypt` before its catch-all: split the stored text on `:`,
throw on a missing component, then run the decipher (which may throw). -/
def decryptBody (decipher : String → String → Option String) (hash : String) :
    Except String String :=
  let parts := (splitOnChar ':' hash.data).map (fun cs => String.mk cs)
  let ivHex := parts.getD 0 ""
  let encryptedHex := parts.getD 1 ""
  if ivHex = "" ∨ encryptedHex = "" then Except.error "Invalid hash format"
  else
    match decipher ivHex encryptedHex with
    | some plain => Except.ok plain
    | none => Except.error "decipher failed"

/-- src/config/crypto.ts `decrypt`: the whole body is wrapped in
`try {...} catch { return '' }`, so every failure yields the empty string. -/
def decrypt (decipher : String → String → Option String) (hash : String) : String :=
  match decryptBody decipher hash with
  | Except.ok s => s
  | Except.error _ => ""

/-- One raw row of the `accounts` table (src/config/db.ts): `password` and
`refresh_token` hold the encrypted text, `games` the JSON text. -/
structure DbRow where
  username : String
  password : Option String
  games : Option String
  custom_title : Option String
  appear_offline : Nat
  auto_restarter : Nat
  refresh_token : Option String
deriving Repr, DecidableEq

/-- The `try` block of the row mapper in `getAccounts`: decrypt the password
and the refresh token.  Its only calls are to the total `decrypt`, so it is
assembled from pure steps of the `Except` monad and never reaches `throw`. -/
def rowSecrets (decipher : String → String → Option String) (row : DbRow) :
    Except String (Option String × Option String) := do
  let password : Option String :=
    match row.password with
    | some p => if p = "" then none else some (decrypt decipher p)
    | none => none
  let refreshToken : Option String :=
    match row.refresh_token with
    | some t => if t = "" then none else some (decrypt decipher t)
    | none => none
  return (password, refreshToken)

/-- The `games` field recovery: parse the JSON list, or reset to `[]` when the
text is absent, empty (falsy) or unparsable. -/
def rowGames (parseGames : String → Option (List Nat)) (row : DbRow) : List Nat :=
  match row.games with
  | some g => if g = "" then [] else (parseGames g).getD []
  | none => []

/-- The `custom_title` recovery: empty coerces to null, and a value that still
looks encrypted (contains a colon and is longer than 32) is reset to null. -/
def rowTitle (row : DbRow) : Option String :=
  match row.custom_title with
  | some t =>
    if t = "" then none
    else if t.contains ':' ∧ 32 < t.length then none
    else some t
  | none => none

/-- The per-row mapper of `getAccounts`: `none` is the `catch` branch that
skips the account when the `try` block threw. -/
def getAccountsRow (decipher : String → String → Option String)
    (parseGames : String → Option (List Nat)) (row : DbRow) : Option Account :=
  match rowSecrets decipher row with
  | Except.error _ => none
  | Except.ok (password, refreshToken) =>
    some { username := row.username, password := password,
           games := rowGames parseGames row, custom_title := rowTitle row,
           appear_offline := row.appear_offline ≠ 0,
           auto_restarter := row.auto_restarter ≠ 0,
           refreshToken := refreshToken }

end HBCLI.Crypto

namespace HBCLI

/-! Association-list lemmas. -/

variable {κ β : Type} [DecidableEq κ]

theorem assocFind_assocSet_self (u : κ) (v : β) (l : List (κ × β)) :
    assocFind u (assocSet u v l) = some v := by
  induction l with
  | nil => simp [assocSet, assocFind]
  | cons p t ih =>
    obtain ⟨k, w⟩ := p
    by_cases h : k = u
    · simp [assocSet, assocFind, h]
    · simp [assocSet, assocFind, h, ih]

theorem assocFind_assocSet_ne (u w : κ) (v : β) (l : List (κ × β)) (hwu : w ≠ u) :
    assocFind w (assocSet u v l) = assocFind w l := by
  have huw : u ≠ w := fun h => hwu h.symm
  induction l with
  | nil => simp [assocSet, assocFind, huw]
  | cons p t ih =>
    obtain ⟨k, w'⟩ := p
    by_cases h : k = u
    · subst h
      simp [assocSet, assocFind, huw]
    · simp [assocSet, assocFind, h, ih]

theorem assocFind_assocErase_ne (u w : κ) (l : List (κ × β)) (hwu : w ≠ u) :
    assocFind w (assocErase u l) = assocFind w l := by
  induction l with
  | nil => simp [assocErase]
  | cons p t ih =>
    obtain ⟨k, w'⟩ := p
    by_cases h : k = u
    · subst h
      have huw : k ≠ w := fun hh => hwu hh.symm
      simp [assocErase, assocFind, huw]
    · simp [assocErase, assocFind, h, ih]

theorem assocFind_eq_none_iff (u : κ) (l : List (κ × β)) :
    assocFind u l = none ↔ u ∉ l.map Prod.fst := by
  induction l with
  | nil => simp [assocFind]
  | cons p t ih =>
    obtain ⟨k, w⟩ := p
    by_cases h : k = u
    · subst h
      simp [assocFind]
    · simp [assocFind, h, ih, Ne.symm h]

theorem assocFind_isSome_of_mem_fst (u : κ) (l : List (κ × β)) (h : u ∈ l.map Prod.fst) :
    (assocFind u l).isSome := by
  rcases hf : assocFind u l with _ | v
  · exact absurd ((assocFind_eq_none_iff u l).mp hf) (by simp [h])
  · rfl

theorem assocFind_assocErase_self (u : κ) (l : List (κ × β))
    (h : (l.map Prod.fst).Nodup) : assocFind u (assocErase u l) = none := by
  induction l with
  | nil => simp [assocErase, assocFind]
  | cons p t ih =>
    obtain ⟨k, w⟩ := p
    simp only [List.map_cons, List.nodup_cons] at h
    by_cases hk : k = u
    · subst hk
      simp only [assocErase, if_pos rfl]
      exact (assocFind_eq_none_iff k t).mpr h.1
    · simp [assocErase, assocFind, hk, ih h.2]

theorem assocErase_sublist (u : κ) (l : List (κ × β)) :
    List.Sublist (assocErase u l) l := by
  induction l with
  | nil => exact List.Sublist.refl _
  | cons p t ih =>
    obtain ⟨k, w⟩ := p
    by_cases h : k = u
    · simp only [assocErase, if_pos h]
      exact List.sublist_cons_self (k, w) t
    · simp only [assocErase, if_neg h]
      exact ih.cons₂ (k, w)

theorem nodup_fst_assocErase (u : κ) (l : List (κ × β)) (h : (l.map Prod.fst).Nodup) :
    ((assocErase u l).map Prod.fst).Nodup :=
  List.Nodup.sublist ((assocErase_sublist u l).map Prod.fst) h

theorem map_fst_assocSet_of_find_some (u : κ) (v w : β) (l : List (κ × β))
    (h : assocFind u l = some w) :
    (assocSet u v l).map Prod.fst = l.map Prod.fst := by
  induction l with
  | nil => simp [assocFind] at h
  | cons p t ih =>
    obtain ⟨k, w'⟩ := p
    by_cases hk : k = u
    · subst hk
      simp [assocSet]
    · simp only [assocFind, if_neg hk] at h
      simp [assocSet, hk, ih h]

theorem assocSet_of_find_none (u : κ) (v : β) (l : List (κ × β))
    (h : assocFind u l = none) : assocSet u v l = l ++ [(u, v)] := by
  induction l with
  | nil => simp [assocSet]
  | cons p t ih =>
    obtain ⟨k, w'⟩ := p
    by_cases hk : k = u
    · simp [assocFind, hk] at h
    · simp only [assocFind, if_neg hk] at h
      simp [assocSet, hk, ih h]

theorem nodup_fst_assocSet_of_find_none (u : κ) (v : β) (l : List (κ × β))
    (hn : (l.map Prod.fst).Nodup) (h : assocFind u l = none) :
    ((assocSet u v l).map Prod.fst).Nodup := by
  rw [assocSet_of_find_none u v l h]
  have hu : u ∉ l.map Prod.fst := (assocFind_eq_none_iff u l).mp h
  simp [List.nodup_append, hn, hu]

theorem assocFind_mem (u : κ) (v : β) (l : List (κ × β)) (h : assocFind u l = some v) :
    (u, v) ∈ l := by
  induction l with
  | nil => simp [assocFind] at h
  | cons p t ih =>
    obtain ⟨k, w⟩ := p
    by_cases hk : k = u
    · subst hk
      simp [assocFind] at h
      subst h
      exact List.mem_cons_self _ _
    · simp only [assocFind, if_neg hk] at h
      exact List.mem_cons_of_mem _ (ih h)

/-! Characterizations of the supervisor routines. -/

theorem stopBoosting_of_find_none (s : SupState) (u : String)
    (h : assocFind u s.clients = none) : stopBoosting s u = (s, []) := by
  simp [stopBoosting, h]

theorem startBoosting_of_isSome (s : SupState) (r i : Nat)
    (h : (assocFind (heapGet s r).username s.clients).isSome = true) :
    startBoosting s r i = (s, []) := by
  simp [startBoosting, h]

/-- The registry entry a successful `startBoosting` call files. -/
def freshEntry (s : SupState) (r i : Nat) : ClientEntry :=
  { clientId := s.nextClientId, accRef := r, idx := i, isLoggingIn := true,
    autoRestartTimeout := none, isWaitingOnElsewhere := false }

theorem startBoosting_of_find_none (s : SupState) (r i : Nat)
    (h : assocFind (heapGet s r).username s.clients = none) :
    startBoosting s r i =
      ({ s with
          clients := assocSet (heapGet s r).username (freshEntry s r i) s.clients,
          nextClientId := s.nextClientId + 1 },
       [Effect.clientCreated (heapGet s r).username s.nextClientId,
        Effect.logOn s.nextClientId (heapGet s r).refreshToken.isSome]) := by
  simp [startBoosting, freshEntry, h]

theorem heapGet_alloc_self (s : SupState) (a : Account) :
    heapGet (alloc s a).2 (alloc s a).1 = a := by
  simp [alloc, heapGet, assocFind_assocSet_self]

theorem clients_alloc (s : SupState) (a : Account) : (alloc s a).2.clients = s.clients := rfl

/-! Preservation of the at-most-one-entry-per-identity invariant. -/

theorem nodup_stopBoosting (s : SupState) (u : String) (h : ClientKeysNodup s) :
    ClientKeysNodup (stopBoosting s u).1 := by
  rcases hf : assocFind u s.clients with _ | entry
  · simpa [stopBoosting, hf] using h
  · rcases ht : entry.autoRestartTimeout with _ | tid <;>
      simpa [stopBoosting, hf, ht, ClientKeysNodup] using nodup_fst_assocErase u s.clients h

theorem nodup_startBoosting (s : SupState) (r i : Nat) (h : ClientKeysNodup s) :
    ClientKeysNodup (startBoosting s r i).1 := by
  by_cases hs : (assocFind (heapGet s r).username s.clients).isSome = true
  · rw [startBoosting_of_isSome s r i hs]
    exact h
  · have hnone : assocFind (heapGet s r).username s.clients = none :=
      Option.not_isSome_iff_eq_none.mp (by simpa using hs)
    rw [startBoosting_of_find_none s r i hnone]
    exact nodup_fst_assocSet_of_find_none _ _ _ h hnone

/-! Branch characterizations of the `disconnected` handler. -/

theorem onDisconnected_absent (s : SupState) (c : Closure) (r : EResult)
    (hf : assocFind (heapGet s c.accRef).username s.clients = none) :
    onDisconnected s c r = (s, []) := by
  simp [onDisconnected, hf]

theorem onDisconnected_noAuto (s : SupState) (c : Closure) (r : EResult) (entry : ClientEntry)
    (hf : assocFind (heapGet s c.accRef).username s.clients = some entry)
    (ha : (heapGet s c.accRef).auto_restarter = false) :
    onDisconnected s c r =
      ({ s with clients := assocErase (heapGet s c.accRef).username s.clients }, []) := by
  simp [onDisconnected, hf, ha]

theorem onDisconnected_waiting (s : SupState) (c : Closure) (r : EResult) (entry : ClientEntry)
    (hf : assocFind (heapGet s c.accRef).username s.clients = some entry)
    (hw : entry.isWaitingOnElsewhere = true)
    (ha : (heapGet s c.accRef).auto_restarter = true) :
    onDisconnected s c r =
      ({ s with
          clients := assocErase (heapGet s c.accRef).username s.clients,
          pendingTimers := s.pendingTimers ++ [Timer.mk s.nextTimerId 2700000 c.accRef c.idx],
          nextTimerId := s.nextTimerId + 1 },
       [Effect.schedule s.nextTimerId 2700000]) := by
  simp [onDisconnected, hf, hw, ha]

theorem onDisconnected_invalid (s : SupState) (c : Closure) (entry : ClientEntry)
    (hf : assocFind (heapGet s c.accRef).username s.clients = some entry)
    (hw : entry.isWaitingOnElsewhere = false)
    (ha : (heapGet s c.accRef).auto_restarter = true) :
    onDisconnected s c EResult.Invalid =
      ({ s with clients := assocErase (heapGet s c.accRef).username s.clients }, []) := by
  simp [onDisconnected, hf, hw, ha]

theorem onDisconnected_maxRetries (s : SupState) (c : Closure) (r : EResult)
    (entry : ClientEntry) (n : Nat)
    (hf : assocFind (heapGet s c.accRef).username s.clients = some entry)
    (hw : entry.isWaitingOnElsewhere = false)
    (ha : (heapGet s c.accRef).auto_restarter = true)
    (hr : r ≠ EResult.Invalid)
    (hn : (assocFind (heapGet s c.accRef).username s.retryAttempts).getD 0 = n)
    (hgt : MAX_RETRIES < n + 1) :
    onDisconnected s c r =
      ({ s with
          clients := assocErase (heapGet s c.accRef).username s.clients,
          retryAttempts := assocErase (heapGet s c.accRef).username s.retryAttempts }, []) := by
  simp [onDisconnected, hf, hw, ha, hr, hn, hgt]

theorem onDisconnected_backoff (s : SupState) (c : Closure) (r : EResult)
    (entry : ClientEntry) (n : Nat)
    (hf : assocFind (heapGet s c.accRef).username s.clients = some entry)
    (hw : entry.isWaitingOnElsewhere = false)
    (ha : (heapGet s c.accRef).auto_restarter = true)
    (hr : r ≠ EResult.Invalid)
    (hn : (assocFind (heapGet s c.accRef).username s.retryAttempts).getD 0 = n)
    (hle : n + 1 ≤ MAX_RETRIES) :
    onDisconnected s c r =
      ({ s with
          clients := assocErase (heapGet s c.accRef).username s.clients,
          retryAttempts := assocSet (heapGet s c.accRef).username (n + 1) s.retryAttempts,
          pendingTimers := s.pendingTimers ++ [Timer.mk s.nextTimerId (60000 * 2 ^ n) c.accRef c.idx],
          nextTimerId := s.nextTimerId + 1 },
       [Effect.schedule s.nextTimerId (60000 * 2 ^ n)]) := by
  have h5 : ¬ (MAX_RETRIES < n + 1) := Nat.not_lt.mpr hle
  simp [onDisconnected, hf, hw, ha, hr, hn, h5]

theorem clients_onDisconnected_some (s : SupState) (c : Closure) (r : EResult)
    (entry : ClientEntry)
    (hf : assocFind (heapGet s c.accRef).username s.clients = some entry) :
    (onDisconnected s c r).1.clients =
      assocErase (heapGet s c.accRef).username s.clients := by
  cases ha : (heapGet s c.accRef).auto_restarter
  · simp [onDisconnected, hf, ha]
  · cases hw : entry.isWaitingOnElsewhere
    · by_cases hr : r = EResult.Invalid
      · simp [onDisconnected, hf, ha, hw, hr]
      · by_cases h5 :
          MAX_RETRIES < ((assocFind (heapGet s c.accRef).username s.retryAttempts).getD 0) + 1
        · simp [onDisconnected, hf, ha, hw, hr, h5]
        · simp [onDisconnected, hf, ha, hw, hr, h5]
    · simp [onDisconnected, hf, ha, hw]

/-! Branch characterizations of the `error` handler. -/

theorem onError_throttled (s : SupState) (c : Closure) (entry : ClientEntry)
    (hf : assocFind (heapGet s c.accRef).username s.clients = some entry) :
    onError s c (some EResult.AccountLoginDeniedThrottle) =
      (heapSet { s with clients := (assocSet (heapGet s c.accRef).username ({ entry with isLoggingIn := false }) s.clients) } c.accRef ({ heapGet s c.accRef with auto_restarter := false }),
       []) := by
  simp [onError, hf, EResult.AccountLoginDeniedThrottle, EResult.LoggedInElsewhere]

theorem onError_elsewhere_auto (s : SupState) (c : Closure) (entry : ClientEntry)
    (hf : assocFind (heapGet s c.accRef).username s.clients = some entry)
    (ha : (heapGet s c.accRef).auto_restarter = true) :
    onError s c (some EResult.LoggedInElsewhere) =
      ({ s with clients := (assocSet (heapGet s c.accRef).username ({ entry with isLoggingIn := false, isWaitingOnElsewhere := true }) (assocSet (heapGet s c.accRef).username ({ entry with isLoggingIn := false }) s.clients)) },
       [Effect.logOff c.clientId]) := by
  simp [onError, hf, ha]

theorem map_fst_clients_onLoggedOn (s : SupState) (c : Closure) :
    ((onLoggedOn s c).1.clients).map Prod.fst = s.clients.map Prod.fst := by
  rcases hf : assocFind (heapGet s c.accRef).username s.clients with _ | entry
  · simp [onLoggedOn, hf]
  · have := map_fst_assocSet_of_find_some (heapGet s c.accRef).username
      ({ entry with isLoggingIn := false }) entry s.clients hf
    simp [onLoggedOn, hf, this]

theorem map_fst_clients_onError (s : SupState) (c : Closure) (e : Option EResult) :
    ((onError s c e).1.clients).map Prod.fst = s.clients.map Prod.fst := by
  rcases hf : assocFind (heapGet s c.accRef).username s.clients with _ | entry
  · by_cases h6 : e = some EResult.LoggedInElsewhere
    · simp [onError, hf, h6]
    · by_cases h87 : e = some EResult.AccountLoginDeniedThrottle
      · simp [onError, hf, h6, h87, EResult.AccountLoginDeniedThrottle, EResult.LoggedInElsewhere]
      · simp [onError, hf, h6, h87]
  · have h1 := map_fst_assocSet_of_find_some (heapGet s c.accRef).username
      ({ entry with isLoggingIn := false }) entry s.clients hf
    by_cases h6 : e = some EResult.LoggedInElsewhere
    · cases ha : (heapGet s c.accRef).auto_restarter
      · simp [onError, hf, h6, ha, h1]
      · have h2 : assocFind (heapGet s c.accRef).username
            (assocSet (heapGet s c.accRef).username ({ entry with isLoggingIn := false }) s.clients) =
            some ({ entry with isLoggingIn := false }) := assocFind_assocSet_self _ _ _
        have h3 := map_fst_assocSet_of_find_some (heapGet s c.accRef).username
          ({ entry with isLoggingIn := false, isWaitingOnElsewhere := true })
          ({ entry with isLoggingIn := false }) _ h2
        simp [onError, hf, h6, ha, h3, h1]
    · by_cases h87 : e = some EResult.AccountLoginDeniedThrottle
      · simp [onError, hf, h6, h87, heapSet, h1,
          EResult.AccountLoginDeniedThrottle, EResult.LoggedInElsewhere]
      · simp [onError, hf, h6, h87, h1]

/-! Invariant preservation for the remaining routines. -/

theorem nodup_onLoggedOn (s : SupState) (c : Closure) (h : ClientKeysNodup s) :
    ClientKeysNodup (onLoggedOn s c).1 := by
  unfold ClientKeysNodup
  rw [map_fst_clients_onLoggedOn]
  exact h

theorem nodup_onRefreshToken (s : SupState) (c : Closure) (tok : String)
    (h : ClientKeysNodup s) : ClientKeysNodup (onRefreshToken s c tok).1 := h

theorem nodup_onError (s : SupState) (c : Closure) (e : Option EResult)
    (h : ClientKeysNodup s) : ClientKeysNodup (onError s c e).1 := by
  unfold ClientKeysNodup
  rw [map_fst_clients_onError]
  exact h

theorem nodup_onDisconnected (s : SupState) (c : Closure) (r : EResult)
    (h : ClientKeysNodup s) : ClientKeysNodup (onDisconnected s c r).1 := by
  rcases hf : assocFind (heapGet s c.accRef).username s.clients with _ | entry
  · rw [onDisconnected_absent s c r hf]
    exact h
  · unfold ClientKeysNodup
    rw [clients_onDisconnected_some s c r entry hf]
    exact nodup_fst_assocErase _ _ h

theorem nodup_fireTimer (s : SupState) (tid : Nat) (h : ClientKeysNodup s) :
    ClientKeysNodup (fireTimer s tid).1 := by
  rcases hf : findTimer tid s.pendingTimers with _ | t
  · simpa [fireTimer, hf] using h
  · have : fireTimer s tid =
        startBoosting ({ s with pendingTimers := s.pendingTimers.filter (fun t2 => t2.tid != tid) }) t.accRef t.idx := by
      simp [fireTimer, hf]
    rw [this]
    exact nodup_startBoosting _ _ _ h

theorem nodup_reconcileStops (newAccounts : List Account) (l : List (String × Account)) :
    ∀ st : SupState × List Effect, ClientKeysNodup st.1 →
      ClientKeysNodup (reconcileStops newAccounts l st).1 := by
  induction l with
  | nil => exact fun st h => h
  | cons p rest ih =>
    intro st h
    by_cases hc : hasUsername newAccounts p.1
    · rw [show reconcileStops newAccounts (p :: rest) st =
          reconcileStops newAccounts rest st from by simp [reconcileStops, hc]]
      exact ih st h
    · rw [show reconcileStops newAccounts (p :: rest) st =
          reconcileStops newAccounts rest
            ((stopBoosting st.1 p.1).1, st.2 ++ (stopBoosting st.1 p.1).2) from by
        simp [reconcileStops, hc]]
      exact ih _ (nodup_stopBoosting _ _ h)

theorem nodup_reconcileStep (snapshot : List (String × Account)) (i : Nat) (b : Account)
    (st : SupState × List Effect) (h : ClientKeysNodup st.1) :
    ClientKeysNodup (reconcileStep snapshot i b st).1 := by
  rcases hf : assocFind b.username st.1.clients with _ | entry
  · rw [show reconcileStep snapshot i b st =
        ((startBoosting (alloc st.1 b).2 (alloc st.1 b).1 (i + 1)).1,
         st.2 ++ (startBoosting (alloc st.1 b).2 (alloc st.1 b).1 (i + 1)).2) from by
      simp [reconcileStep, hf]]
    exact nodup_startBoosting _ _ _ h
  · rcases hs : assocFind b.username snapshot with _ | oldAcc
    · rw [show reconcileStep snapshot i b st = (st.1, st.2) from by simp [reconcileStep, hf, hs]]
      exact h
    · by_cases hnr : needsRestart oldAcc b
      · have hstop : ClientKeysNodup
            (stopBoosting ({ st.1 with retryAttempts := assocErase b.username st.1.retryAttempts }) b.username).1 :=
          nodup_stopBoosting _ _ h
        rw [show reconcileStep snapshot i b st =
            ((startBoosting
                (alloc (stopBoosting ({ st.1 with retryAttempts := assocErase b.username st.1.retryAttempts }) b.username).1 b).2
                (alloc (stopBoosting ({ st.1 with retryAttempts := assocErase b.username st.1.retryAttempts }) b.username).1 b).1
                (i + 1)).1,
             st.2 ++ (stopBoosting ({ st.1 with retryAttempts := assocErase b.username st.1.retryAttempts }) b.username).2 ++
               (startBoosting
                (alloc (stopBoosting ({ st.1 with retryAttempts := assocErase b.username st.1.retryAttempts }) b.username).1 b).2
                (alloc (stopBoosting ({ st.1 with retryAttempts := assocErase b.username st.1.retryAttempts }) b.username).1 b).1
                (i + 1)).2) from by
          simp [reconcileStep, hf, hs, hnr]]
        exact nodup_startBoosting _ _ _ hstop
      · rw [show reconcileStep snapshot i b st = (st.1, st.2) from by
          simp [reconcileStep, hf, hs, hnr]]
        exact h

theorem nodup_reconcileStarts (snapshot : List (String × Account)) (l : List (Nat × Account)) :
    ∀ st : SupState × List Effect, ClientKeysNodup st.1 →
      ClientKeysNodup (reconcileStarts snapshot l st).1 := by
  induction l with
  | nil => exact fun st h => h
  | cons p rest ih =>
    obtain ⟨i, b⟩ := p
    intro st h
    rw [show reconcileStarts snapshot ((i, b) :: rest) st =
        reconcileStarts snapshot rest (reconcileStep snapshot i b st) from rfl]
    exact ih _ (nodup_reconcileStep snapshot i b st h)

theorem nodup_updateBoosting (s : SupState) (newAccounts : List Account)
    (h : ClientKeysNodup s) : ClientKeysNodup (updateBoosting s newAccounts).1 := by
  unfold updateBoosting
  exact nodup_reconcileStarts _ _ _
    (nodup_reconcileStops newAccounts (currentAccountsOf s) (s, []) h)

theorem nodup_supStep (s : SupState) (a : SupAction) (h : ClientKeysNodup s) :
    ClientKeysNodup (supStep s a).1 := by
  cases a with
  | start accRef idx => exact nodup_startBoosting s accRef idx h
  | stop username => exact nodup_stopBoosting s username h
  | loggedOn c => exact nodup_onLoggedOn s c h
  | tokenRotated c token => exact nodup_onRefreshToken s c token h
  | clientError c eresult => exact nodup_onError s c eresult h
  | disconnected c eresult => exact nodup_onDisconnected s c eresult h
  | timerFired tid => exact nodup_fireTimer s tid h
  | reconcile newAccounts => exact nodup_updateBoosting s newAccounts h

/-! Reconciliation lemmas. -/

theorem hasUsername_eq_true (l : List Account) (u : String) :
    hasUsername l u = true ↔ ∃ a ∈ l, a.username = u := by
  simp [hasUsername, List.any_eq_true]

theorem reconcileStops_id (newAccounts : List Account) :
    ∀ (l : List (String × Account)) (st : SupState × List Effect),
      (∀ p ∈ l, hasUsername newAccounts p.1 = true) →
      reconcileStops newAccounts l st = st := by
  intro l
  induction l with
  | nil => intro st _; rfl
  | cons p rest ih =>
    intro st h
    rw [show reconcileStops newAccounts (p :: rest) st = reconcileStops newAccounts rest st from by
      simp [reconcileStops, h p (List.mem_cons_self _ _)]]
    exact ih st (fun q hq => h q (List.mem_cons_of_mem _ hq))

theorem reconcileStep_id (snapshot : List (String × Account)) (i : Nat) (b : Account)
    (s : SupState) (eff : List Effect) (entry : ClientEntry) (oldAcc : Account)
    (hf : assocFind b.username s.clients = some entry)
    (hs : assocFind b.username snapshot = some oldAcc)
    (hnr : needsRestart oldAcc b = false) :
    reconcileStep snapshot i b (s, eff) = (s, eff) := by
  simp [reconcileStep, hf, hs, hnr]

theorem reconcileStarts_id (snapshot : List (String × Account)) :
    ∀ (l : List (Nat × Account)) (s : SupState) (eff : List Effect),
      (∀ pr ∈ l, ∃ entry oldAcc, assocFind pr.2.username s.clients = some entry ∧
          assocFind pr.2.username snapshot = some oldAcc ∧ needsRestart oldAcc pr.2 = false) →
      reconcileStarts snapshot l (s, eff) = (s, eff) := by
  intro l
  induction l with
  | nil => intro s eff _; rfl
  | cons pr rest ih =>
    obtain ⟨i, b⟩ := pr
    intro s eff h
    obtain ⟨entry, oldAcc, hf, hs, hnr⟩ := h (i, b) (List.mem_cons_self _ _)
    rw [show reconcileStarts snapshot ((i, b) :: rest) (s, eff) =
        reconcileStarts snapshot rest (reconcileStep snapshot i b (s, eff)) from rfl,
      reconcileStep_id snapshot i b s eff entry oldAcc hf hs hnr]
    exact ih s eff (fun q hq => h q (List.mem_cons_of_mem _ hq))

theorem assocFind_clients_map (s : SupState) :
    ∀ (l : List (String × ClientEntry)) (u : String) (e : ClientEntry),
      (∀ p ∈ l, (heapGet s p.2.accRef).username = p.1) →
      assocFind u l = some e →
      assocFind u (l.map (fun p => ((heapGet s p.2.accRef).username, heapGet s p.2.accRef))) =
        some (heapGet s e.accRef) := by
  intro l
  induction l with
  | nil => intro u e _ hf; simp [assocFind] at hf
  | cons p t ih =>
    obtain ⟨k, en⟩ := p
    intro u e hkc hf
    have hk : (heapGet s en.accRef).username = k := hkc (k, en) (List.mem_cons_self _ _)
    by_cases h : k = u
    · subst h
      simp [assocFind] at hf
      subst hf
      simp [assocFind, hk]
    · simp only [assocFind, if_neg h] at hf
      have := ih u e (fun q hq => hkc q (List.mem_cons_of_mem _ hq)) hf
      simp [assocFind, hk, h, this]

theorem mem_currentAccountsOf (s : SupState) (p : String × Account)
    (hp : p ∈ currentAccountsOf s) :
    ∃ q ∈ s.clients, p.1 = (heapGet s q.2.accRef).username := by
  simp only [currentAccountsOf, List.mem_map] at hp
  obtain ⟨q, hq, hpe⟩ := hp
  exact ⟨q, hq, by rw [← hpe]⟩

theorem needsRestart_eq_false_of_sameExceptToken (a b : Account) (h : sameExceptToken a b) :
    needsRestart a b = false := by
  obtain ⟨_, h1, h2, h3, h4, h5⟩ := h
  simp [needsRestart, h1, h2, h3, h4, h5]

/-! Counting the stop and start actions a reconciliation pass performs. -/

theorem stopsFor_append (u : String) (e1 e2 : List Effect) :
    stopsFor u (e1 ++ e2) = stopsFor u e1 + stopsFor u e2 :=
  List.countP_append _ _ _

theorem startsFor_append (u : String) (e1 e2 : List Effect) :
    startsFor u (e1 ++ e2) = startsFor u e1 + startsFor u e2 :=
  List.countP_append _ _ _

theorem stopsFor_startBoosting (u : String) (s : SupState) (r i : Nat) :
    stopsFor u (startBoosting s r i).2 = 0 := by
  by_cases hs : (assocFind (heapGet s r).username s.clients).isSome = true
  · rw [startBoosting_of_isSome s r i hs]
    rfl
  · have hnone : assocFind (heapGet s r).username s.clients = none :=
      Option.not_isSome_iff_eq_none.mp (by simpa using hs)
    rw [startBoosting_of_find_none s r i hnone]
    rfl

theorem startsFor_stopBoosting (u v : String) (s : SupState) :
    startsFor u (stopBoosting s v).2 = 0 := by
  rcases hf : assocFind v s.clients with _ | entry
  · simp [stopBoosting, hf, startsFor]
  · rcases ht : entry.autoRestartTimeout with _ | tid <;>
      simp [stopBoosting, hf, ht, startsFor]

theorem stopsFor_stopBoosting_ne (u v : String) (s : SupState) (hvu : v ≠ u) :
    stopsFor u (stopBoosting s v).2 = 0 := by
  rcases hf : assocFind v s.clients with _ | entry
  · simp [stopBoosting, hf, stopsFor]
  · rcases ht : entry.autoRestartTimeout with _ | tid <;>
      simp [stopBoosting, hf, ht, stopsFor, hvu]

theorem stopsFor_stopBoosting_found (u : String) (s : SupState) (entry : ClientEntry)
    (hf : assocFind u s.clients = some entry) :
    stopsFor u (stopBoosting s u).2 = 1 := by
  rcases ht : entry.autoRestartTimeout with _ | tid <;>
    simp [stopBoosting, hf, ht, stopsFor]

theorem startsFor_startBoosting_ne (u : String) (s : SupState) (r i : Nat)
    (h : (heapGet s r).username ≠ u) :
    startsFor u (startBoosting s r i).2 = 0 := by
  by_cases hs : (assocFind (heapGet s r).username s.clients).isSome = true
  · rw [startBoosting_of_isSome s r i hs]
    rfl
  · have hnone : assocFind (heapGet s r).username s.clients = none :=
      Option.not_isSome_iff_eq_none.mp (by simpa using hs)
    rw [startBoosting_of_find_none s r i hnone]
    simp [startsFor, h]

theorem startsFor_startBoosting_found (u : String) (s : SupState) (r i : Nat)
    (hn : assocFind (heapGet s r).username s.clients = none)
    (hu : (heapGet s r).username = u) :
    startsFor u (startBoosting s r i).2 = 1 := by
  rw [startBoosting_of_find_none s r i hn]
  simp [startsFor, hu]

theorem clients_find_stopBoosting_ne (s : SupState) (v u : String) (hvu : v ≠ u) :
    assocFind u (stopBoosting s v).1.clients = assocFind u s.clients := by
  rcases hf : assocFind v s.clients with _ | entry
  · simp [stopBoosting, hf]
  · rcases ht : entry.autoRestartTimeout with _ | tid <;>
      simp [stopBoosting, hf, ht, assocFind_assocErase_ne v u s.clients (Ne.symm hvu)]

theorem clients_find_startBoosting_ne (s : SupState) (r i : Nat) (u : String)
    (h : (heapGet s r).username ≠ u) :
    assocFind u (startBoosting s r i).1.clients = assocFind u s.clients := by
  by_cases hs : (assocFind (heapGet s r).username s.clients).isSome = true
  · rw [startBoosting_of_isSome s r i hs]
  · have hnone : assocFind (heapGet s r).username s.clients = none :=
      Option.not_isSome_iff_eq_none.mp (by simpa using hs)
    rw [startBoosting_of_find_none s r i hnone]
    exact assocFind_assocSet_ne _ u _ s.clients (Ne.symm h)

theorem reconcileStep_ne_facts (snap : List (String × Account)) (i : Nat) (b : Account)
    (st : SupState × List Effect) (u : String) (hb : b.username ≠ u) :
    stopsFor u (reconcileStep snap i b st).2 = stopsFor u st.2 ∧
    startsFor u (reconcileStep snap i b st).2 = startsFor u st.2 ∧
    assocFind u (reconcileStep snap i b st).1.clients = assocFind u st.1.clients := by
  rcases hf : assocFind b.username st.1.clients with _ | entry
  · rw [show reconcileStep snap i b st =
        ((startBoosting (alloc st.1 b).2 (alloc st.1 b).1 (i + 1)).1,
         st.2 ++ (startBoosting (alloc st.1 b).2 (alloc st.1 b).1 (i + 1)).2) from by
      simp [reconcileStep, hf]]
    have hgb : heapGet (alloc st.1 b).2 (alloc st.1 b).1 = b := heapGet_alloc_self st.1 b
    refine ⟨?_, ?_, ?_⟩
    · simp [stopsFor_append, stopsFor_startBoosting]
    · simp [startsFor_append, startsFor_startBoosting_ne u _ _ _ (by rw [hgb]; exact hb)]
    · rw [clients_find_startBoosting_ne _ _ _ u (by rw [hgb]; exact hb), clients_alloc]
  · rcases hs : assocFind b.username snap with _ | oldAcc
    · rw [show reconcileStep snap i b st = (st.1, st.2) from by simp [reconcileStep, hf, hs]]
      exact ⟨rfl, rfl, rfl⟩
    · by_cases hnr : needsRestart oldAcc b
      · rw [show reconcileStep snap i b st =
            ((startBoosting
                (alloc (stopBoosting ({ st.1 with retryAttempts := assocErase b.username st.1.retryAttempts }) b.username).1 b).2
                (alloc (stopBoosting ({ st.1 with retryAttempts := assocErase b.username st.1.retryAttempts }) b.username).1 b).1
                (i + 1)).1,
             st.2 ++ (stopBoosting ({ st.1 with retryAttempts := assocErase b.username st.1.retryAttempts }) b.username).2 ++
               (startBoosting
                (alloc (stopBoosting ({ st.1 with retryAttempts := assocErase b.username st.1.retryAttempts }) b.username).1 b).2
                (alloc (stopBoosting ({ st.1 with retryAttempts := assocErase b.username st.1.retryAttempts }) b.username).1 b).1
                (i + 1)).2) from by
          simp [reconcileStep, hf, hs, hnr]]
        have hgb : heapGet
            (alloc (stopBoosting ({ st.1 with retryAttempts := assocErase b.username st.1.retryAttempts }) b.username).1 b).2
            (alloc (stopBoosting ({ st.1 with retryAttempts := assocErase b.username st.1.retryAttempts }) b.username).1 b).1 = b :=
          heapGet_alloc_self _ b
        refine ⟨?_, ?_, ?_⟩
        · simp [stopsFor_append, stopsFor_startBoosting,
            stopsFor_stopBoosting_ne u b.username _ hb]
        · simp [startsFor_append, startsFor_stopBoosting,
            startsFor_startBoosting_ne u _ _ _ (by rw [hgb]; exact hb)]
        · rw [clients_find_startBoosting_ne _ _ _ u (by rw [hgb]; exact hb), clients_alloc,
            clients_find_stopBoosting_ne _ b.username u hb]
      · rw [show reconcileStep snap i b st = (st.1, st.2) from by
          simp [reconcileStep, hf, hs, hnr]]
        exact ⟨rfl, rfl, rfl⟩

theorem reconcileStep_self_counts (snap : List (String × Account)) (i : Nat) (b : Account)
    (st : SupState × List Effect) (u : String) (entry : ClientEntry) (oldAcc : Account)
    (hb : b.username = u)
    (hf : assocFind u st.1.clients = some entry)
    (hnodup : ClientKeysNodup st.1)
    (hs : assocFind u snap = some oldAcc)
    (hnr : needsRestart oldAcc b = true) :
    stopsFor u (reconcileStep snap i b st).2 = stopsFor u st.2 + 1 ∧
    startsFor u (reconcileStep snap i b st).2 = startsFor u st.2 + 1 := by
  subst hb
  rw [show reconcileStep snap i b st =
      ((startBoosting
          (alloc (stopBoosting ({ st.1 with retryAttempts := assocErase b.username st.1.retryAttempts }) b.username).1 b).2
          (alloc (stopBoosting ({ st.1 with retryAttempts := assocErase b.username st.1.retryAttempts }) b.username).1 b).1
          (i + 1)).1,
       st.2 ++ (stopBoosting ({ st.1 with retryAttempts := assocErase b.username st.1.retryAttempts }) b.username).2 ++
         (startBoosting
          (alloc (stopBoosting ({ st.1 with retryAttempts := assocErase b.username st.1.retryAttempts }) b.username).1 b).2
          (alloc (stopBoosting ({ st.1 with retryAttempts := assocErase b.username st.1.retryAttempts }) b.username).1 b).1
          (i + 1)).2) from by
    simp [reconcileStep, hf, hs, hnr]]
  have hf0 : assocFind b.username
      ({ st.1 with retryAttempts := assocErase b.username st.1.retryAttempts } : SupState).clients =
      some entry := hf
  have hstop1 : stopsFor b.username
      (stopBoosting ({ st.1 with retryAttempts := assocErase b.username st.1.retryAttempts }) b.username).2 = 1 :=
    stopsFor_stopBoosting_found b.username _ entry hf0
  have hclients : (stopBoosting ({ st.1 with retryAttempts := assocErase b.username st.1.retryAttempts }) b.username).1.clients =
      assocErase b.username st.1.clients := by
    rcases ht : entry.autoRestartTimeout with _ | tid <;>
      simp [stopBoosting, hf0, ht]
  have hgb : heapGet
      (alloc (stopBoosting ({ st.1 with retryAttempts := assocErase b.username st.1.retryAttempts }) b.username).1 b).2
      (alloc (stopBoosting ({ st.1 with retryAttempts := assocErase b.username st.1.retryAttempts }) b.username).1 b).1 = b :=
    heapGet_alloc_self _ b
  have hnone : assocFind
      (heapGet (alloc (stopBoosting ({ st.1 with retryAttempts := assocErase b.username st.1.retryAttempts }) b.username).1 b).2
        (alloc (stopBoosting ({ st.1 with retryAttempts := assocErase b.username st.1.retryAttempts }) b.username).1 b).1).username
      (alloc (stopBoosting ({ st.1 with retryAttempts := assocErase b.username st.1.retryAttempts }) b.username).1 b).2.clients = none := by
    rw [hgb, clients_alloc, hclients]
    exact assocFind_assocErase_self b.username st.1.clients hnodup
  have hstart1 : startsFor b.username
      (startBoosting
        (alloc (stopBoosting ({ st.1 with retryAttempts := assocErase b.username st.1.retryAttempts }) b.username).1 b).2
        (alloc (stopBoosting ({ st.1 with retryAttempts := assocErase b.username st.1.retryAttempts }) b.username).1 b).1
        (i + 1)).2 = 1 :=
    startsFor_startBoosting_found b.username _ _ _ hnone (by rw [hgb])
  constructor
  · simp [stopsFor_append, hstop1, stopsFor_startBoosting]
  · simp [startsFor_append, startsFor_stopBoosting, hstart1]

theorem reconcileStarts_zero_counts (snap : List (String × Account)) (u : String) :
    ∀ (l : List (Nat × Account)) (st : SupState × List Effect),
      (∀ pr ∈ l, pr.2.username ≠ u) →
      stopsFor u (reconcileStarts snap l st).2 = stopsFor u st.2 ∧
      startsFor u (reconcileStarts snap l st).2 = startsFor u st.2 := by
  intro l
  induction l with
  | nil => exact fun st _ => ⟨rfl, rfl⟩
  | cons pr rest ih =>
    obtain ⟨i, b⟩ := pr
    intro st h
    have hb : b.username ≠ u := h (i, b) (List.mem_cons_self _ _)
    obtain ⟨h1, h2, _⟩ := reconcileStep_ne_facts snap i b st u hb
    have := ih (reconcileStep snap i b st) (fun q hq => h q (List.mem_cons_of_mem _ hq))
    rw [show reconcileStarts snap ((i, b) :: rest) st =
        reconcileStarts snap rest (reconcileStep snap i b st) from rfl]
    exact ⟨this.1.trans h1, this.2.trans h2⟩

theorem reconcileStarts_one_counts (snap : List (String × Account)) (u : String)
    (oldAcc : Account) :
    ∀ (l : List (Nat × Account)) (st : SupState × List Effect),
      (assocFind u st.1.clients).isSome = true →
      ClientKeysNodup st.1 →
      assocFind u snap = some oldAcc →
      l.countP (fun pr => decide (pr.2.username = u)) = 1 →
      (∀ pr ∈ l, pr.2.username = u → needsRestart oldAcc pr.2 = true) →
      stopsFor u (reconcileStarts snap l st).2 = stopsFor u st.2 + 1 ∧
      startsFor u (reconcileStarts snap l st).2 = startsFor u st.2 + 1 := by
  intro l
  induction l with
  | nil => intro st _ _ _ hcount _; simp at hcount
  | cons pr rest ih =>
    obtain ⟨i, b⟩ := pr
    intro st hsome hnodup hsnap hcount hrest
    rw [show reconcileStarts snap ((i, b) :: rest) st =
        reconcileStarts snap rest (reconcileStep snap i b st) from rfl]
    by_cases hb : b.username = u
    · have hcount0 : rest.countP (fun pr => decide (pr.2.username = u)) = 0 := by
        rw [List.countP_cons] at hcount
        simpa [hb] using hcount
      have hall : ∀ pr ∈ rest, pr.2.username ≠ u := by
        intro q hq
        have := List.countP_eq_zero.mp hcount0 q hq
        simpa using this
      obtain ⟨entry, hf⟩ := Option.isSome_iff_exists.mp hsome
      obtain ⟨hs1, hs2⟩ := reconcileStep_self_counts snap i b st u entry oldAcc hb hf hnodup
        hsnap (hrest (i, b) (List.mem_cons_self _ _) hb)
      obtain ⟨hz1, hz2⟩ := reconcileStarts_zero_counts snap u rest (reconcileStep snap i b st) hall
      exact ⟨hz1.trans hs1, hz2.trans hs2⟩
    · have hcount1 : rest.countP (fun pr => decide (pr.2.username = u)) = 1 := by
        rw [List.countP_cons] at hcount
        simpa [hb] using hcount
      obtain ⟨h1, h2, h3⟩ := reconcileStep_ne_facts snap i b st u hb
      have hsome' : (assocFind u (reconcileStep snap i b st).1.clients).isSome = true := by
        rw [h3]; exact hsome
      have hnodup' : ClientKeysNodup (reconcileStep snap i b st).1 :=
        nodup_reconcileStep snap i b st hnodup
      obtain ⟨hi1, hi2⟩ := ih (reconcileStep snap i b st) hsome' hnodup' hsnap hcount1
        (fun q hq => hrest q (List.mem_cons_of_mem _ hq))
      exact ⟨by rw [hi1, h1], by rw [hi2, h2]⟩

theorem reconcileStops_facts (newAccounts : List Account) (u : String)
    (hu : hasUsername newAccounts u = true) :
    ∀ (l : List (String × Account)) (st : SupState × List Effect),
      stopsFor u (reconcileStops newAccounts l st).2 = stopsFor u st.2 ∧
      startsFor u (reconcileStops newAccounts l st).2 = startsFor u st.2 ∧
      assocFind u (reconcileStops newAccounts l st).1.clients = assocFind u st.1.clients ∧
      (ClientKeysNodup st.1 → ClientKeysNodup (reconcileStops newAccounts l st).1) := by
  intro l
  induction l with
  | nil => exact fun st => ⟨rfl, rfl, rfl, fun h => h⟩
  | cons p rest ih =>
    intro st
    by_cases hc : hasUsername newAccounts p.1
    · rw [show reconcileStops newAccounts (p :: rest) st =
          reconcileStops newAccounts rest st from by simp [reconcileStops, hc]]
      exact ih st
    · have hne : p.1 ≠ u := fun hh => hc (hh ▸ hu)
      rw [show reconcileStops newAccounts (p :: rest) st =
          reconcileStops newAccounts rest
            ((stopBoosting st.1 p.1).1, st.2 ++ (stopBoosting st.1 p.1).2) from by
        simp [reconcileStops, hc]]
      obtain ⟨i1, i2, i3, i4⟩ := ih ((stopBoosting st.1 p.1).1, st.2 ++ (stopBoosting st.1 p.1).2)
      refine ⟨?_, ?_, ?_, ?_⟩
      · rw [i1]
        simp [stopsFor_append, stopsFor_stopBoosting_ne u p.1 st.1 hne]
      · rw [i2]
        simp [startsFor_append, startsFor_stopBoosting]
      · rw [i3]
        exact clients_find_stopBoosting_ne st.1 p.1 u hne
      · exact fun h => i4 (nodup_stopBoosting st.1 p.1 h)

theorem countP_username_eq_one (u : String) :
    ∀ (l : List Account), (l.map Account.username).Nodup →
      ∀ a ∈ l, a.username = u →
      l.countP (fun b => decide (b.username = u)) = 1 := by
  intro l
  induction l with
  | nil => intro _ a ha; simp at ha
  | cons b t ih =>
    intro hnd a ha hau
    simp only [List.map_cons, List.nodup_cons] at hnd
    rcases List.mem_cons.mp ha with hab | hat
    · subst hab
      have ht0 : t.countP (fun b => decide (b.username = u)) = 0 := by
        apply List.countP_eq_zero.mpr
        intro q hq
        simp only [decide_eq_true_eq]
        intro hqu
        exact hnd.1 (by rw [hau, ← hqu]; exact List.mem_map_of_mem _ hq)
      rw [List.countP_cons]
      simp [hau, ht0]
    · have hbu : b.username ≠ u := by
        intro hbu
        exact hnd.1 (by rw [← hbu] at hau; rw [← hau]; exact List.mem_map_of_mem _ hat)
      rw [List.countP_cons]
      simp [hbu, ih hnd.2 a hat hau]

theorem updateBoosting_eq (s : SupState) (newAccounts : List Account) :
    updateBoosting s newAccounts =
      reconcileStarts (currentAccountsOf s) newAccounts.enum
        (reconcileStops newAccounts (currentAccountsOf s) (s, [])) := rfl

theorem retry_onLoggedOn (s : SupState) (c : Closure) :
    (onLoggedOn s c).1.retryAttempts =
      assocErase (heapGet s c.accRef).username s.retryAttempts := by
  rcases hf : assocFind (heapGet s c.accRef).username s.clients with _ | entry <;>
    simp [onLoggedOn, hf]

theorem heapGet_heapSet_self (s : SupState) (r : Nat) (a : Account) :
    heapGet (heapSet s r a) r = a := by
  simp [heapGet, heapSet, assocFind_assocSet_self]

/-- C7: the registry holds at most one live Session (and hence one Transport
Client) per identity: every supervisor stimulus preserves distinctness of the
registry keys, and `startBoosting` for an already-registered username returns
the state unchanged with no effects, so no second client is created. -/
theorem atMostOneSessionPerIdentity :
    (∀ (s : SupState) (a : SupAction), ClientKeysNodup s → ClientKeysNodup (supStep s a).1) ∧
    (∀ (s : SupState) (r i : Nat),
      (assocFind (heapGet s r).username s.clients).isSome = true →
      startBoosting s r i = (s, [])) :=
  ⟨fun s a h => nodup_supStep s a h, fun s r i h => startBoosting_of_isSome s r i h⟩

/-- C5: when the new snapshot pairs every live identity with a record equal to
the live one in every field except the session token, a reconciliation pass
changes nothing and performs no stop or start action. -/
theorem tokenRotationNeutral (s : SupState) (newAccounts : List Account)
    (hkc : KeyConsistent s)
    (hcover : ∀ p ∈ s.clients, ∃ a ∈ newAccounts, a.username = p.1)
    (hmatch : ∀ a ∈ newAccounts, ∃ e, assocFind a.username s.clients = some e ∧
        sameExceptToken (heapGet s e.accRef) a) :
    updateBoosting s newAccounts = (s, []) := by
  rw [updateBoosting_eq]
  have hstops : reconcileStops newAccounts (currentAccountsOf s) (s, []) = (s, []) := by
    apply reconcileStops_id
    intro p hp
    obtain ⟨q, hq, hpk⟩ := mem_currentAccountsOf s p hp
    rw [hasUsername_eq_true]
    obtain ⟨a, haN, hau⟩ := hcover q hq
    exact ⟨a, haN, by rw [hau, ← hkc q hq, ← hpk]⟩
  rw [hstops]
  apply reconcileStarts_id
  intro pr hpr
  have hmem : pr.2 ∈ newAccounts := by
    have h1 : pr.2 ∈ newAccounts.enum.map Prod.snd := List.mem_map_of_mem _ hpr
    rwa [List.enum_map_snd] at h1
  obtain ⟨e, hfinde, hsame⟩ := hmatch pr.2 hmem
  exact ⟨e, heapGet s e.accRef, hfinde,
    assocFind_clients_map s s.clients pr.2.username e hkc hfinde,
    needsRestart_eq_false_of_sameExceptToken _ _ hsame⟩

/-- C6: an identity live in the registry whose new record differs in a
restart-relevant field (`games`, `custom_title`, `appear_offline`,
`auto_restarter` or `password`) is stopped exactly once and started exactly
once by the reconciliation pass. -/
theorem fieldChangeRestartsOnce (s : SupState) (newAccounts : List Account) (u : String)
    (a : Account) (e : ClientEntry)
    (hnodup : ClientKeysNodup s) (hkc : KeyConsistent s)
    (hnodupN : (newAccounts.map Account.username).Nodup)
    (ha : a ∈ newAccounts) (hu : a.username = u)
    (he : assocFind u s.clients = some e)
    (hrestart : needsRestart (heapGet s e.accRef) a = true) :
    stopsFor u (updateBoosting s newAccounts).2 = 1 ∧
    startsFor u (updateBoosting s newAccounts).2 = 1 := by
  rw [updateBoosting_eq]
  have huc : hasUsername newAccounts u = true := (hasUsername_eq_true _ _).mpr ⟨a, ha, hu⟩
  obtain ⟨s1, s2, s3, s4⟩ := reconcileStops_facts newAccounts u huc (currentAccountsOf s) (s, [])
  have hsnap : assocFind u (currentAccountsOf s) = some (heapGet s e.accRef) :=
    assocFind_clients_map s s.clients u e hkc he
  have hcnt : newAccounts.enum.countP (fun pr => decide (pr.2.username = u)) = 1 := by
    have h1 := List.countP_map (fun b : Account => decide (b.username = u)) Prod.snd
      newAccounts.enum
    rw [List.enum_map_snd] at h1
    rw [countP_username_eq_one u newAccounts hnodupN a ha hu] at h1
    exact h1.symm
  have hforall : ∀ pr ∈ newAccounts.enum, pr.2.username = u →
      needsRestart (heapGet s e.accRef) pr.2 = true := by
    intro pr hpr hpru
    have hmem : pr.2 ∈ newAccounts := by
      have h1 : pr.2 ∈ newAccounts.enum.map Prod.snd := List.mem_map_of_mem _ hpr
      rwa [List.enum_map_snd] at h1
    have hpa : pr.2 = a := List.inj_on_of_nodup_map hnodupN hmem ha (by rw [hpru, hu])
    rw [hpa]
    exact hrestart
  have hsome : (assocFind u
      (reconcileStops newAccounts (currentAccountsOf s) (s, [])).1.clients).isSome = true := by
    rw [s3]
    simp [he]
  obtain ⟨f1, f2⟩ := reconcileStarts_one_counts (currentAccountsOf s) u (heapGet s e.accRef)
    newAccounts.enum _ hsome (s4 hnodup) hsnap hcnt hforall
  constructor
  · rw [f1, s1]
    rfl
  · rw [f2, s2]
    rfl

/-- C3 (amended): an ordinary disconnect — reason not the elsewhere-collision
and not the Invalid (0) code that client-initiated logoffs report, which the
handler ignores — with `auto_restarter` set increments the retry count; past
the ceiling of 5 the session stops with no timer, otherwise a reconnect is
scheduled after exactly 60000·2^(n) ms for previous count n (60s, 120s, 240s,
480s, 960s); a successful login deletes the retry count. -/
theorem backoffPolicy (s : SupState) (c : Closure) (u : String) (entry : ClientEntry)
    (r : EResult)
    (hu : (heapGet s c.accRef).username = u)
    (hf : assocFind u s.clients = some entry)
    (hw : entry.isWaitingOnElsewhere = false)
    (ha : (heapGet s c.accRef).auto_restarter = true)
    (hr : r ≠ EResult.Invalid)
    (hnodupC : ClientKeysNodup s)
    (hnodupR : (s.retryAttempts.map Prod.fst).Nodup) :
    ((MAX_RETRIES < (assocFind u s.retryAttempts).getD 0 + 1 →
        assocFind u (onDisconnected s c r).1.retryAttempts = none ∧
        (onDisconnected s c r).2 = [] ∧
        (onDisconnected s c r).1.pendingTimers = s.pendingTimers ∧
        assocFind u (onDisconnected s c r).1.clients = none) ∧
      ((assocFind u s.retryAttempts).getD 0 + 1 ≤ MAX_RETRIES →
        assocFind u (onDisconnected s c r).1.retryAttempts =
          some ((assocFind u s.retryAttempts).getD 0 + 1) ∧
        (onDisconnected s c r).2 =
          [Effect.schedule s.nextTimerId (60000 * 2 ^ (assocFind u s.retryAttempts).getD 0)] ∧
        (onDisconnected s c r).1.pendingTimers =
          s.pendingTimers ++ [Timer.mk s.nextTimerId (60000 * 2 ^ (assocFind u s.retryAttempts).getD 0) c.accRef c.idx] ∧
        assocFind u (onDisconnected s c r).1.clients = none)) ∧
    assocFind u (onLoggedOn s c).1.retryAttempts = none := by
  subst hu
  refine ⟨⟨?_, ?_⟩, ?_⟩
  · intro hgt
    rw [onDisconnected_maxRetries s c r entry _ hf hw ha hr rfl hgt]
    exact ⟨assocFind_assocErase_self _ _ hnodupR, rfl, rfl,
      assocFind_assocErase_self _ _ hnodupC⟩
  · intro hle
    rw [onDisconnected_backoff s c r entry _ hf hw ha hr rfl hle]
    exact ⟨assocFind_assocSet_self _ _ _, rfl, rfl,
      assocFind_assocErase_self _ _ hnodupC⟩
  · rw [retry_onLoggedOn s c]
    exact assocFind_assocErase_self _ _ hnodupR

/-- C4: after a LoggedInElsewhere error on a session with `auto_restarter`
set, the handler only logs the client off, and the disconnect that follows
schedules the reconnect after exactly 45 minutes (2700000 ms); the retry map is
neither read into the delay nor changed. -/
theorem elsewhereIsolation (s sE : SupState) (c : Closure) (u : String)
    (entry : ClientEntry) (r : EResult) (effE : List Effect)
    (hu : (heapGet s c.accRef).username = u)
    (hf : assocFind u s.clients = some entry)
    (ha : (heapGet s c.accRef).auto_restarter = true)
    (hrun : onError s c (some EResult.LoggedInElsewhere) = (sE, effE)) :
    effE = [Effect.logOff c.clientId] ∧
    sE.retryAttempts = s.retryAttempts ∧
    sE.pendingTimers = s.pendingTimers ∧
    (onDisconnected sE c r).2 = [Effect.schedule s.nextTimerId 2700000] ∧
    (onDisconnected sE c r).1.retryAttempts = s.retryAttempts ∧
    (onDisconnected sE c r).1.pendingTimers =
      s.pendingTimers ++ [Timer.mk s.nextTimerId 2700000 c.accRef c.idx] := by
  subst hu
  rw [onError_elsewhere_auto s c entry hf ha, Prod.mk.injEq] at hrun
  obtain ⟨hsE, heff⟩ := hrun
  have hng : heapGet sE c.accRef = heapGet s c.accRef := by rw [← hsE]; rfl
  have hclients : sE.clients = assocSet (heapGet s c.accRef).username ({ entry with isLoggingIn := false, isWaitingOnElsewhere := true }) (assocSet (heapGet s c.accRef).username ({ entry with isLoggingIn := false }) s.clients) := by
    rw [← hsE]
  have hretry : sE.retryAttempts = s.retryAttempts := by rw [← hsE]
  have htimers : sE.pendingTimers = s.pendingTimers := by rw [← hsE]
  have hnt : sE.nextTimerId = s.nextTimerId := by rw [← hsE]
  have hf2 : assocFind (heapGet sE c.accRef).username sE.clients =
      some ({ entry with isLoggingIn := false, isWaitingOnElsewhere := true }) := by
    rw [hng, hclients]
    exact assocFind_assocSet_self _ _ _
  have ha2 : (heapGet sE c.accRef).auto_restarter = true := by
    rw [hng]
    exact ha
  have hrun2 := onDisconnected_waiting sE c r _ hf2 rfl ha2
  refine ⟨heff.symm, hretry, htimers, ?_, ?_, ?_⟩
  · rw [hrun2, hnt]
  · rw [hrun2]
    exact hretry
  · rw [hrun2, htimers, hnt]

/-- C8: a throttled recoverable error leaves the session registered with the
same client and timers, clears `auto_restarter` on the in-memory account
object without persisting anything, and the next disconnect therefore removes
the session with no reconnect scheduled and no retry-state change. -/
theorem throttleSuppressed (s sT : SupState) (c : Closure) (u : String)
    (entry : ClientEntry) (r : EResult) (effT : List Effect)
    (hu : (heapGet s c.accRef).username = u)
    (hf : assocFind u s.clients = some entry)
    (hrun : onError s c (some EResult.AccountLoginDeniedThrottle) = (sT, effT)) :
    effT = [] ∧
    sT.clients = assocSet u ({ entry with isLoggingIn := false }) s.clients ∧
    sT.pendingTimers = s.pendingTimers ∧
    sT.retryAttempts = s.retryAttempts ∧
    (heapGet sT c.accRef).auto_restarter = false ∧
    (heapGet sT c.accRef).username = u ∧
    (onDisconnected sT c r).2 = [] ∧
    (onDisconnected sT c r).1.pendingTimers = s.pendingTimers ∧
    (onDisconnected sT c r).1.retryAttempts = s.retryAttempts ∧
    (onDisconnected sT c r).1.clients = assocErase u sT.clients := by
  subst hu
  rw [onError_throttled s c entry hf, Prod.mk.injEq] at hrun
  obtain ⟨hsT, heff⟩ := hrun
  have hclients : sT.clients =
      assocSet (heapGet s c.accRef).username ({ entry with isLoggingIn := false }) s.clients := by
    rw [← hsT]; rfl
  have htimers : sT.pendingTimers = s.pendingTimers := by rw [← hsT]; rfl
  have hretry : sT.retryAttempts = s.retryAttempts := by rw [← hsT]; rfl
  have hg : heapGet sT c.accRef = { heapGet s c.accRef with auto_restarter := false } := by
    rw [← hsT]
    exact heapGet_heapSet_self _ _ _
  have hf2 : assocFind (heapGet sT c.accRef).username sT.clients =
      some ({ entry with isLoggingIn := false }) := by
    rw [hg, hclients]
    exact assocFind_assocSet_self _ _ _
  have ha2 : (heapGet sT c.accRef).auto_restarter = false := by rw [hg]
  have hrun2 := onDisconnected_noAuto sT c r _ hf2 ha2
  refine ⟨heff.symm, hclients, htimers, hretry, by rw [hg], by rw [hg], ?_, ?_, ?_, ?_⟩
  · rw [hrun2]
  · rw [hrun2]
    exact htimers
  · rw [hrun2]
    exact hretry
  · rw [hrun2, hg]

/-- C1 (the code, evaluated at the failing input): with the session of
"alice" in its backoff wait, a reconciliation pass from which alice is absent
performs no action at all — the 60 s reconnect timer and the retry count
survive — and when the timer fires the supervisor logs a fresh client in for
the removed identity. -/
theorem removalDoesNotStopBackoffSession :
    (updateBoosting sBackoff []).2 = [] ∧
    (updateBoosting sBackoff []).1.pendingTimers = [Timer.mk 0 60000 0 1] ∧
    (updateBoosting sBackoff []).1.retryAttempts = [("alice", 1)] ∧
    (fireTimer (updateBoosting sBackoff []).1 0).2 =
      [Effect.clientCreated "alice" 1, Effect.logOn 1 false] :=
  ⟨rfl, rfl, rfl, rfl⟩

/-- C2 (the code, evaluated at the failing input): stopping alice's live
session does not cancel the reconnect timer of her previous session
generation — the timer stays pending and fires a new client for the stopped
identity — and two pending reconnect timers can exist for one identity at
once. -/
theorem stopDoesNotCancelPendingTimer :
    (updateBoosting sRestarted []).2 = [Effect.logOff 1, Effect.stopped "alice"] ∧
    sStopped.clients = [] ∧
    sStopped.pendingTimers = [Timer.mk 0 60000 0 1] ∧
    (fireTimer sStopped 0).2 = [Effect.clientCreated "alice" 2, Effect.logOn 2 false] ∧
    sTwoTimers.pendingTimers = [Timer.mk 0 60000 0 1, Timer.mk 1 120000 1 1] ∧
    sTwoTimers.pendingTimers.map (fun t => (heapGet sTwoTimers t.accRef).username) =
      ["alice", "alice"] :=
  ⟨rfl, rfl, rfl, rfl, rfl, rfl⟩

/-- C3 (counterexample): a disconnect with reason code 0 (Invalid) — not the
elsewhere-collision — on a registered session with `auto_restarter` set leaves
the retry count untouched and schedules nothing, so the claimed increment and
60 s timer do not occur. -/
theorem backoffClaimFailsOnInvalid :
    (heapGet sAlice cAlice.accRef).auto_restarter = true ∧
    (assocFind "alice" sAlice.clients).isSome = true ∧
    EResult.Invalid ≠ EResult.LoggedInElsewhere ∧
    (onDisconnected sAlice cAlice EResult.Invalid).1.retryAttempts = [] ∧
    (onDisconnected sAlice cAlice EResult.Invalid).2 = [] ∧
    (onDisconnected sAlice cAlice EResult.Invalid).1.pendingTimers = [] :=
  ⟨rfl, rfl, by decide, rfl, rfl, rfl⟩

/-- C9 (the code, evaluated at the failing input): delivering SIGINT with one
live session stops it, but the process exits immediately with code 130
(128 + 2) through the listener src/config/db.ts registered — not with code 0
after the 2000 ms grace window `gracefulShutdown` scheduled; SIGTERM exits
143.  Only with no sessions at all is the exit code 0. -/
theorem signalExitPreempted :
    (deliverSignal sAlice Signal.SIGINT).exitCode = 130 ∧
    (deliverSignal sAlice Signal.SIGINT).exitDelayMs = 0 ∧
    (deliverSignal sAlice Signal.SIGINT).effects = [Effect.logOff 0, Effect.stopped "alice"] ∧
    (deliverSignal sAlice Signal.SIGINT).state.clients = [] ∧
    (deliverSignal sAlice Signal.SIGTERM).exitCode = 143 ∧
    (deliverSignal SupState.empty Signal.SIGINT).exitCode = 0 ∧
    (130 : Nat) ≠ 0 :=
  ⟨rfl, rfl, rfl, rfl, rfl, rfl, by decide⟩

/-- C10: `decrypt` catches every failure of its body and returns the empty
string, so it is total; hence the row mapper of `getAccounts` never takes its
catch branch — every row yields a record — and a row whose stored password
does not decrypt (wrong key or malformed) comes back with an empty-string
password instead of being skipped. -/
theorem decryptTotalAndCatchUnreachable
    (decipher : String → String → Option String)
    (parseGames : String → Option (List Nat)) (row : Crypto.DbRow) (p msg : String)
    (hp : row.password = some p) (hpne : p ≠ "")
    (herr : Crypto.decryptBody decipher p = Except.error msg) :
    (∀ r2 : Crypto.DbRow, (Crypto.getAccountsRow decipher parseGames r2).isSome = true) ∧
    Crypto.decrypt decipher p = "" ∧
    ∃ a, Crypto.getAccountsRow decipher parseGames row = some a ∧ a.password = some "" := by
  refine ⟨?_, ?_, ?_⟩
  · intro r2
    simp [Crypto.getAccountsRow, Crypto.rowSecrets, pure, Except.pure]
  · simp [Crypto.decrypt, herr]
  · refine ⟨_, rfl, ?_⟩
    simp [Crypto.rowSecrets, hp, hpne, Crypto.decrypt, herr]

theorem atMostOneSessionPerIdentity_witness :
    ClientKeysNodup (supStep sAlice (SupAction.disconnected cAlice EResult.NoConnection)).1 ∧
    startBoosting sAlice 0 2 = (sAlice, []) :=
  ⟨atMostOneSessionPerIdentity.1 sAlice (SupAction.disconnected cAlice EResult.NoConnection)
      (by decide : (sAlice.clients.map Prod.fst).Nodup),
   atMostOneSessionPerIdentity.2 sAlice 0 2 (by decide)⟩

theorem tokenRotationNeutral_witness :
    updateBoosting sAlice [accAtok] = (sAlice, []) := by
  apply tokenRotationNeutral
  · exact (by decide : ∀ p ∈ sAlice.clients, (heapGet sAlice p.2.accRef).username = p.1)
  · decide
  · intro a ha
    have haeq : a = accAtok := by simpa using ha
    subst haeq
    exact ⟨⟨0, 0, 1, true, none, false⟩, by decide, by decide⟩

theorem fieldChangeRestartsOnce_witness :
    stopsFor "alice" (updateBoosting sAlice [accA2]).2 = 1 ∧
    startsFor "alice" (updateBoosting sAlice [accA2]).2 = 1 :=
  fieldChangeRestartsOnce sAlice [accA2] "alice" accA2 ⟨0, 0, 1, true, none, false⟩
    (by decide : (sAlice.clients.map Prod.fst).Nodup)
    (by decide : ∀ p ∈ sAlice.clients, (heapGet sAlice p.2.accRef).username = p.1)
    (by decide) (by decide) (by decide) (by decide) (by decide)

theorem backoffPolicy_witness :
    assocFind "alice" (onDisconnected sAlice cAlice EResult.NoConnection).1.retryAttempts =
      some ((assocFind "alice" sAlice.retryAttempts).getD 0 + 1) ∧
    assocFind "alice" (onLoggedOn sAlice cAlice).1.retryAttempts = none := by
  have h := backoffPolicy sAlice cAlice "alice" ⟨0, 0, 1, true, none, false⟩
    EResult.NoConnection (by decide) (by decide) rfl (by decide) (by decide)
    (by decide : (sAlice.clients.map Prod.fst).Nodup)
    (by decide : (sAlice.retryAttempts.map Prod.fst).Nodup)
  exact ⟨(h.1.2 (by decide)).1, h.2⟩

theorem elsewhereIsolation_witness :
    (onError sAlice cAlice (some EResult.LoggedInElsewhere)).2 = [Effect.logOff 0] ∧
    (onDisconnected (onError sAlice cAlice (some EResult.LoggedInElsewhere)).1 cAlice
        EResult.Invalid).2 = [Effect.schedule sAlice.nextTimerId 2700000] := by
  have h := elsewhereIsolation sAlice
    (onError sAlice cAlice (some EResult.LoggedInElsewhere)).1 cAlice "alice"
    ⟨0, 0, 1, true, none, false⟩ EResult.Invalid
    (onError sAlice cAlice (some EResult.LoggedInElsewhere)).2
    (by decide) (by decide) (by decide) rfl
  exact ⟨h.1, h.2.2.2.1⟩

theorem throttleSuppressed_witness :
    (onError sAlice cAlice (some EResult.AccountLoginDeniedThrottle)).2 = [] ∧
    (heapGet (onError sAlice cAlice (some EResult.AccountLoginDeniedThrottle)).1
        cAlice.accRef).auto_restarter = false ∧
    (onDisconnected (onError sAlice cAlice (some EResult.AccountLoginDeniedThrottle)).1 cAlice
        EResult.NoConnection).2 = [] := by
  have h := throttleSuppressed sAlice
    (onError sAlice cAlice (some EResult.AccountLoginDeniedThrottle)).1 cAlice "alice"
    ⟨0, 0, 1, true, none, false⟩ EResult.NoConnection
    (onError sAlice cAlice (some EResult.AccountLoginDeniedThrottle)).2
    (by decide) (by decide) rfl
  exact ⟨h.1, h.2.2.2.2.1, h.2.2.2.2.2.2.1⟩

theorem decryptTotalAndCatchUnreachable_witness :
    (∀ r2 : Crypto.DbRow,
      (Crypto.getAccountsRow (fun _ _ => none) (fun _ => none) r2).isSome = true) ∧
    Crypto.decrypt (fun _ _ => none) "aa:bb" = "" ∧
    ∃ a, Crypto.getAccountsRow (fun _ _ => none) (fun _ => none)
        ({ username := "bob", password := some "aa:bb", games := some "g",
           custom_title := none, appear_offline := 0, auto_restarter := 1,
           refresh_token := none } : Crypto.DbRow) = some a ∧ a.password = some "" :=
  decryptTotalAndCatchUnreachable (fun _ _ => none) (fun _ => none)
    ({ username := "bob", password := some "aa:bb", games := some "g",
       custom_title := none, appear_offline := 0, auto_restarter := 1,
       refresh_token := none } : Crypto.DbRow) "aa:bb" "decipher failed"
    rfl (by decide) rfl

end HBCLI

